import Mathlib

/-!
# PostQueue — shallow embedding

A shallow embedding of the PostQueue ESP32 library (`src/PostQueue.cpp`,
`src/PostQueue.h`): a bounded producer/consumer queue of HTTP POST request
records with a single worker, per-request execution policy (TLS verification
toggle, timeout, redirect limit, custom-header parsing) and aggregate
counters.

External collaborators (FreeRTOS queue/task primitives, the Arduino String
class, the HTTP transport) are modelled through their documented contracts:
the FreeRTOS queue is a bounded FIFO list, allocation outcomes of
`new`/`strdup`/`xQueueCreate`/`xTaskCreate` are explicit oracle inputs, and
the transport is an oracle returning a numeric status code and body.
Heap accounting (`live`) counts outstanding allocations (one unit per
PostItem, per copied string, per FreeRTOS queue, per task) so that
leak-freedom claims are stated as conservation of `live`.

Machine integers: the three statistics counters are `uint32_t` in the
source; increments are modelled as `(x + 1) % 2 ^ 32`.
-/

namespace PostQueue

/-- A queued POST request record (`struct PostItem`). The `char*` fields
`url`, `jsonPayload`, `customHeaders` are nullable in the source (a failed
`strdup` yields NULL), hence `Option String`. -/
structure PostItem where
  url : Option String
  jsonPayload : Option String
  customHeaders : Option String
  useSSL : Bool
  timestamp : Nat
deriving Repr, DecidableEq

/-- Outcome oracle for the four allocations `PostQueue::post` performs:
`new PostItem()`, `strdup(url)`, `strdup(jsonPayload)`,
`strdup(customHeaders)`. -/
structure AllocPlan where
  itemOk : Bool
  urlOk : Bool
  payloadOk : Bool
  headersOk : Bool
deriving Repr, DecidableEq

/-- The state of one `PostQueue` object. `queue = none` models
`_queue == NULL`; `some items` models a created FreeRTOS queue holding
`items` (FIFO, head = next to dequeue) with capacity `maxQueueSize`.
`live` counts outstanding heap allocations (leak accounting).
`spawnCount` counts successful `xTaskCreate` calls. -/
structure PostQueueState where
  queue : Option (List PostItem)
  taskHandle : Bool
  maxQueueSize : Nat
  httpTimeout : Nat
  maxRedirects : Nat
  verifySSL : Bool
  hasCallback : Bool
  totalProcessed : Nat
  totalSuccessful : Nat
  totalFailed : Nat
  running : Bool
  live : Nat
  spawnCount : Nat
deriving Repr, DecidableEq

/-- The constructor `PostQueue::PostQueue` (PostQueue.cpp lines 8–22):
everything null/zero, `_verifySSL(false)`, defaults
`DEFAULT_HTTP_TIMEOUT = 10000`, `DEFAULT_MAX_REDIRECTS = 5`. -/
def initState (maxQueueSize : Nat) : PostQueueState :=
  { queue := none
    taskHandle := false
    maxQueueSize := maxQueueSize
    httpTimeout := 10000
    maxRedirects := 5
    verifySSL := false
    hasCallback := false
    totalProcessed := 0
    totalSuccessful := 0
    totalFailed := 0
    running := false
    live := 0
    spawnCount := 0 }

/-- Heap blocks owned by a `PostItem`: the item object itself plus one
block per non-NULL string field (what `freePostItem` releases). -/
def itemBlocks (i : PostItem) : Nat :=
  1 + (if i.url.isSome then 1 else 0) + (if i.jsonPayload.isSome then 1 else 0)
    + (if i.customHeaders.isSome then 1 else 0)

/-- `PostQueue::begin` (lines 28–60). `queueCreateOk` is the outcome of
`xQueueCreate`, `taskCreateOk` of `xTaskCreate`. On task-creation failure
the just-created queue is deleted (`vQueueDelete`) before returning. -/
def begin (s : PostQueueState) (queueCreateOk taskCreateOk : Bool) :
    Bool × PostQueueState :=
  if s.running then (true, s)
  else if !queueCreateOk then (false, s)
  else
    let s1 := { s with queue := some [], live := s.live + 1 }
    if !taskCreateOk then
      (false, { s1 with queue := none, live := s1.live - 1 })
    else
      (true, { s1 with taskHandle := true, running := true,
                       live := s1.live + 1, spawnCount := s1.spawnCount + 1 })

/-- `PostQueue::clear` (lines 153–162): dequeue every item and
`freePostItem` it. -/
def clear (s : PostQueueState) : PostQueueState :=
  match s.queue with
  | none => s
  | some items =>
      { s with queue := some [],
               live := items.foldl (fun l i => l - itemBlocks i) s.live }

/-- `PostQueue::end` (lines 62–85): return if not running; otherwise set
`_running = false`, `clear()`, delete the task, delete the queue. -/
def endQ (s : PostQueueState) : PostQueueState :=
  if !s.running then s
  else
    let s1 := { s with running := false }
    let s2 := clear s1
    let s3 := if s2.taskHandle
              then { s2 with taskHandle := false, live := s2.live - 1 }
              else s2
    if s3.queue.isSome
    then { s3 with queue := none, live := s3.live - 1 }
    else s3

/-- `PostQueue::post` (lines 87–127). Returns the source's boolean result
and the successor state. `a` is the allocation oracle, `now` models
`millis()`. `uxQueueSpacesAvailable(_queue) == 0` is
`maxQueueSize - items.length = 0`; `xQueueSend` with zero timeout succeeds
iff the queue is not full. -/
def post (s : PostQueueState) (url jsonPayload : String) (useSSL : Bool)
    (customHeaders : Option String) (a : AllocPlan) (now : Nat) :
    Bool × PostQueueState :=
  if !s.running || s.queue.isNone then (false, s)
  else
    match s.queue with
    | none => (false, s)
    | some items =>
      if s.maxQueueSize - items.length = 0 then (false, s)
      else if !a.itemOk then (false, s)
      else
        let item : PostItem :=
          { url := if a.urlOk then some url else none
            jsonPayload := if a.payloadOk then some jsonPayload else none
            customHeaders :=
              match customHeaders with
              | some h => if a.headersOk then some h else none
              | none => none
            useSSL := useSSL
            timestamp := now }
        let live1 := s.live + itemBlocks item
        if item.url.isNone || item.jsonPayload.isNone then
          (false, { s with live := live1 - itemBlocks item })
        else if items.length < s.maxQueueSize then
          (true, { s with queue := some (items ++ [item]), live := live1 })
        else
          (false, { s with live := live1 - itemBlocks item })

/-- `PostQueue::getQueueSize` (lines 135–140): 0 when `_queue == NULL`,
else `uxQueueMessagesWaiting`. -/
def getQueueSize (s : PostQueueState) : Nat :=
  match s.queue with
  | none => 0
  | some items => items.length

/-- `PostQueue::isEmpty` (lines 142–144). -/
def isEmpty (s : PostQueueState) : Bool :=
  getQueueSize s == 0

/-- `PostQueue::isFull` (lines 146–151): false when `_queue == NULL`,
else `uxQueueSpacesAvailable == 0`. -/
def isFull (s : PostQueueState) : Bool :=
  match s.queue with
  | none => false
  | some items => s.maxQueueSize - items.length == 0

/-- `PostQueue::setTimeout` (lines 164–166). -/
def setTimeout (s : PostQueueState) (timeout : Nat) : PostQueueState :=
  { s with httpTimeout := timeout % 2 ^ 32 }

/-- `PostQueue::setMaxRedirects` (lines 168–170). -/
def setMaxRedirects (s : PostQueueState) (n : Nat) : PostQueueState :=
  { s with maxRedirects := n % 2 ^ 8 }

/-- `PostQueue::setCallback` (lines 172–174); we track only whether a
callback is installed. -/
def setCallback (s : PostQueueState) (installed : Bool) : PostQueueState :=
  { s with hasCallback := installed }

/-- `PostQueue::setSSLVerification` (lines 176–178). -/
def setSSLVerification (s : PostQueueState) (verify : Bool) : PostQueueState :=
  { s with verifySSL := verify }

/-- `PostQueue::getStats` (lines 180–184). -/
def getStats (s : PostQueueState) : Nat × Nat × Nat :=
  (s.totalProcessed, s.totalSuccessful, s.totalFailed)

/-! ## Custom header parsing (`PostQueue::performPost`, lines 266–292)

The Arduino `String` collaborator is modelled over `List Char`:
`String::indexOf(ch, fromIndex)` returns the first index `≥ fromIndex`
holding `ch` (or −1, modelled as `none` before adding the offset),
`String::substring(from, to)` is the half-open slice, and `String::trim()`
strips `isspace` characters (space, `\t`, `\n`, `\v`, `\f`, `\r`) from
both ends. -/

/-- `isspace` as used by `String::trim`. -/
def isSpaceB (c : Char) : Bool :=
  c = ' ' || c = '\t' || c = '\n' || c = '\x0b' || c = '\x0c' || c = '\r'

/-- `String::trim()`: remove leading and trailing whitespace. -/
def trimChars (l : List Char) : List Char :=
  ((l.dropWhile isSpaceB).reverse.dropWhile isSpaceB).reverse

/-- Index of the first occurrence of `c` in `l` (Arduino
`String::indexOf` restricted to a suffix; `none` models −1). -/
def indexOfChar : List Char → Char → Option Nat
  | [], _ => none
  | x :: rest, c => if x = c then some 0 else (indexOfChar rest c).map (· + 1)

/-- Arduino `String::indexOf` as an `int`: first index of `c`, or −1. -/
def stringIndexOfInt (l : List Char) (c : Char) : Int :=
  match indexOfChar l c with
  | none => -1
  | some k => k

/-- One iteration body of the header loop on an already-extracted
`headerLine` (lines 275–285): trim the line; if non-empty, compute
`int colonPos = headerLine.indexOf(':')`; if `colonPos > 0`,
`addHeader(trim(name), trim(value))`. -/
def processHeaderLine (line : List Char) : Option (List Char × List Char) :=
  let t := trimChars line
  if t.length > 0 then
    let colonPos := stringIndexOfInt t ':'
    if colonPos > 0 then
      some (trimChars (t.take colonPos.toNat),
            trimChars (t.drop (colonPos.toNat + 1)))
    else none
  else none

/-- The `while (endPos >= 0 || startPos < headers.length())` loop of
lines 270–291, with absolute indices into `headers`. Structural recursion
on an explicit fuel (every iteration advances `startPos`, so
`headers.length + 1` fuel always suffices); `headerLoopFuel_spec` below
shows the fuel is irrelevant once sufficient. -/
def headerLoopFuel (fuel : Nat) (headers : List Char) (startPos : Nat) :
    List (List Char × List Char) :=
  match fuel with
  | 0 => []
  | fuel + 1 =>
    match indexOfChar (headers.drop startPos) '\n' with
    | some k =>
        -- endPos = startPos + k ≥ 0: headerLine = substring(startPos, endPos)
        let headerLine := (headers.drop startPos).take k
        let applied :=
          match processHeaderLine headerLine with
          | some nv => [nv]
          | none => []
        applied ++ headerLoopFuel fuel headers (startPos + k + 1)
    | none =>
        -- endPos = −1: loop runs once more iff startPos < length, then breaks
        if startPos < headers.length then
          match processHeaderLine (headers.drop startPos) with
          | some nv => [nv]
          | none => []
        else []

/-- The custom-header block of `performPost` (lines 267–292): headers are
parsed only when `customHeaders != NULL && strlen(customHeaders) > 0`.
Returns the `addHeader(name, value)` calls in order. -/
def parseCustomHeaders (customHeaders : Option String) :
    List (List Char × List Char) :=
  match customHeaders with
  | none => []
  | some h =>
      if h.length > 0 then headerLoopFuel (h.data.length + 1) h.data 0 else []

/-! ## Transport configuration and response classification
(`PostQueue::performPost`, lines 240–313) -/

/-- What `performPost` configures on the transport before issuing the
POST: transport selection (lines 246–254), timeout (257), redirect policy
(260–261), and the header list (264–292: always `Content-Type:
application/json` first, then the parsed custom headers). `insecure`
records whether `WiFiClientSecure::setInsecure()` was called. -/
structure TransportRequest where
  url : String
  payload : String
  secure : Bool
  insecure : Bool
  timeout : Nat
  followRedirects : Bool
  redirectLimit : Nat
  headers : List (List Char × List Char)
deriving Repr, DecidableEq

/-- The configuration part of `performPost` (lines 240–292) as a function
of the current state and the record's fields. -/
def performPostConfig (s : PostQueueState) (url jsonPayload : String)
    (customHeaders : Option String) (useSSL : Bool) : TransportRequest :=
  { url := url
    payload := jsonPayload
    secure := useSSL
    insecure := useSSL && !s.verifySSL
    timeout := s.httpTimeout
    followRedirects := decide (s.maxRedirects > 0)
    redirectLimit := s.maxRedirects
    headers := ("Content-Type".data, "application/json".data)
                 :: parseCustomHeaders customHeaders }

/-- The transport collaborator's outcome for one POST: the numeric status
code returned by `http.POST` (≤ 0 signals a pre-response transport
failure) and the body `http.getString()` would return. -/
structure TransportResult where
  code : Int
  body : String
deriving Repr, DecidableEq

/-- The response-classification tail of `performPost` (lines 294–312):
`(success, httpCode, response)` where `response` was initialised to `""`
by the caller and is only assigned from `getString()` when
`httpCode > 0`. -/
def performPostResult (t : TransportResult) : Bool × Int × String :=
  let httpCode := t.code
  if httpCode > 0 then
    if 200 ≤ httpCode ∧ httpCode < 300 then (true, httpCode, t.body)
    else (false, httpCode, t.body)
  else (false, httpCode, "")

/-- `PostQueue::processPostItem` (lines 208–238): NULL check, increment
`_totalProcessed`, run `performPost`, increment `_totalSuccessful` or
`_totalFailed`, and invoke the callback if set. Returns the new state and
the callback invocation (if any). Counters are `uint32_t`. -/
def processPostItem (s : PostQueueState) (item : Option PostItem)
    (t : TransportResult) :
    PostQueueState × Option (Bool × Int × String) :=
  match item with
  | none => (s, none)
  | some _ =>
    let s1 := { s with totalProcessed := (s.totalProcessed + 1) % 2 ^ 32 }
    let r := performPostResult t
    let s2 :=
      if r.1 then { s1 with totalSuccessful := (s1.totalSuccessful + 1) % 2 ^ 32 }
      else { s1 with totalFailed := (s1.totalFailed + 1) % 2 ^ 32 }
    (s2, if s.hasCallback then some r else none)

/-- One iteration of `PostQueue::workerTask` (lines 186–206): exit when
`_running` is false; otherwise `xQueueReceive` (no-op on timeout when the
queue is empty), `processPostItem`, `freePostItem`. -/
def workerStep (s : PostQueueState) (t : TransportResult) :
    PostQueueState × Option (Bool × Int × String) :=
  if !s.running then (s, none)
  else
    match s.queue with
    | none => (s, none)
    | some [] => (s, none)
    | some (item :: rest) =>
        let (s1, cb) := processPostItem { s with queue := some rest } (some item) t
        ({ s1 with live := s1.live - itemBlocks item }, cb)

/-! ## Operation sequences -/

/-- Arguments of one `post` call (with its allocation oracle and
`millis()` value). -/
structure PostCall where
  url : String
  payload : String
  useSSL : Bool
  headers : Option String
  a : AllocPlan
  now : Nat
deriving Repr, DecidableEq

/-- Fold a sequence of `post` calls over the state. -/
def postMany (s : PostQueueState) : List PostCall → PostQueueState
  | [] => s
  | c :: cs => postMany (post s c.url c.payload c.useSSL c.headers c.a c.now).2 cs

/-- One public operation on a `PostQueue` (with the oracle inputs each
needs). -/
inductive Op where
  | opPost (c : PostCall)
  | opWorker (t : TransportResult)
  | opBegin (queueCreateOk taskCreateOk : Bool)
  | opEnd
  | opClear
  | opSetSSL (b : Bool)
  | opSetTimeout (n : Nat)
  | opSetMaxRedirects (n : Nat)
  | opSetCallback (b : Bool)
deriving Repr, DecidableEq

/-- Apply one operation to the state. -/
def applyOp (s : PostQueueState) : Op → PostQueueState
  | .opPost c => (post s c.url c.payload c.useSSL c.headers c.a c.now).2
  | .opWorker t => (workerStep s t).1
  | .opBegin q tk => (begin s q tk).2
  | .opEnd => endQ s
  | .opClear => clear s
  | .opSetSSL b => setSSLVerification s b
  | .opSetTimeout n => setTimeout s n
  | .opSetMaxRedirects n => setMaxRedirects s n
  | .opSetCallback b => setCallback s b

/-- Run a sequence of operations. -/
def runOps (s : PostQueueState) (ops : List Op) : PostQueueState :=
  ops.foldl applyOp s

/-! ## Specification-side header parsing

The following definitions follow the spec's words (§4.3 step 4): "parse as
newline-separated `"Name: Value"` lines: split on the first `:` only,
trim surrounding whitespace from both name and value, skip lines with no
colon or an empty trimmed name. The final line need not be
newline-terminated." They exist only to be compared with the source-side
`parseCustomHeaders`. -/

/-- Spec side: split into newline-separated lines (a trailing newline
yields a final empty line, i.e. the final line need not be
newline-terminated). -/
def specSplitLines : List Char → List (List Char)
  | [] => [[]]
  | c :: rest =>
      if c = '\n' then [] :: specSplitLines rest
      else
        match specSplitLines rest with
        | [] => [[c]]
        | line :: ls => (c :: line) :: ls

/-- Spec side: split a line on the first `:` only (`none` when the line
has no colon). -/
def specSplitFirstColon : List Char → Option (List Char × List Char)
  | [] => none
  | c :: rest =>
      if c = ':' then some ([], rest)
      else (specSplitFirstColon rest).map (fun p => (c :: p.1, p.2))

/-- Spec side: one line becomes a header iff it has a colon and the
trimmed name is non-empty; name and value are trimmed of surrounding
whitespace. -/
def specHeaderOfLine (line : List Char) : Option (List Char × List Char) :=
  match specSplitFirstColon line with
  | none => none
  | some (n, v) =>
      let n' := trimChars n
      if n' = [] then none else some (n', trimChars v)

/-- Spec side: the full header-block parse. -/
def specParseHeaders (l : List Char) : List (List Char × List Char) :=
  (specSplitLines l).filterMap specHeaderOfLine

/-! ## Basic state lemmas -/

lemma clear_fields (s : PostQueueState) :
    (clear s).running = s.running ∧ (clear s).taskHandle = s.taskHandle ∧
    (clear s).totalProcessed = s.totalProcessed ∧
    (clear s).totalSuccessful = s.totalSuccessful ∧
    (clear s).totalFailed = s.totalFailed ∧
    (clear s).maxQueueSize = s.maxQueueSize := by
  unfold clear
  cases s.queue <;> simp

lemma endQ_counters (s : PostQueueState) :
    (endQ s).totalProcessed = s.totalProcessed ∧
    (endQ s).totalSuccessful = s.totalSuccessful ∧
    (endQ s).totalFailed = s.totalFailed := by
  unfold endQ clear
  cases s.queue <;> simp <;> split_ifs <;> simp

lemma begin_counters (s : PostQueueState) (q tk : Bool) :
    (begin s q tk).2.totalProcessed = s.totalProcessed ∧
    (begin s q tk).2.totalSuccessful = s.totalSuccessful ∧
    (begin s q tk).2.totalFailed = s.totalFailed := by
  unfold begin
  split_ifs <;> simp

lemma endQ_running (s : PostQueueState) : (endQ s).running = false := by
  unfold endQ clear
  by_cases h : s.running <;> cases hq : s.queue <;>
    simp [h, hq] <;> split_ifs <;> simp

lemma endQ_queue (s : PostQueueState) (hwf : s.running = false → s.queue = none) :
    (endQ s).queue = none := by
  unfold endQ clear
  by_cases h : s.running <;> cases hq : s.queue <;>
    simp [h, hq] at hwf ⊢ <;> split_ifs <;> simp_all

lemma begin_running_true (s : PostQueueState) (q tk : Bool)
    (h : (begin s q tk).1 = true) : (begin s q tk).2.running = true := by
  unfold begin at *
  split_ifs at h ⊢ <;> simp_all

/-! ## C10 — accessors are total when the queue is absent -/

/-- C10: when the queue has not been allocated (`_queue == NULL`), every
public accessor is total and returns a defined value: `getQueueSize`
returns 0, `isEmpty` returns true, `isFull` returns false, and `clear` is
a no-op. -/
theorem c10_accessors_total_without_queue (s : PostQueueState)
    (h : s.queue = none) :
    getQueueSize s = 0 ∧ isEmpty s = true ∧ isFull s = false ∧ clear s = s := by
  refine ⟨?_, ?_, ?_, ?_⟩ <;> simp [getQueueSize, isEmpty, isFull, clear, h]

/-- C10 witness: the claim instantiated on a freshly constructed queue. -/
theorem c10_accessors_total_without_queue_witness :
    getQueueSize (initState 10) = 0 ∧ isEmpty (initState 10) = true ∧
      isFull (initState 10) = false ∧ clear (initState 10) = initState 10 :=
  c10_accessors_total_without_queue (initState 10) rfl

/-! ## C9 — start/stop idempotence -/

/-- C9: `begin` while already running returns true and changes no state
(so no second consumer is spawned), `end` while already stopped is a
no-op, and two consecutive calls of either have the same observable
effect as one. -/
theorem c9_start_stop_idempotent :
    (∀ (s : PostQueueState) (q tk : Bool), s.running = true →
        begin s q tk = (true, s))
    ∧ (∀ s : PostQueueState, s.running = false → endQ s = s)
    ∧ (∀ (s : PostQueueState) (q1 t1 q2 t2 : Bool), (begin s q1 t1).1 = true →
        begin (begin s q1 t1).2 q2 t2 = (true, (begin s q1 t1).2))
    ∧ (∀ s : PostQueueState, endQ (endQ s) = endQ s) := by
  have hbegin : ∀ (s : PostQueueState) (q tk : Bool), s.running = true →
      begin s q tk = (true, s) := by
    intro s q tk h
    unfold begin
    simp [h]
  have hend : ∀ s : PostQueueState, s.running = false → endQ s = s := by
    intro s h
    unfold endQ
    simp [h]
  refine ⟨hbegin, hend, ?_, ?_⟩
  · intro s q1 t1 q2 t2 h
    exact hbegin _ q2 t2 (begin_running_true s q1 t1 h)
  · intro s
    exact hend _ (endQ_running s)

/-- C9 witness: both idempotence clauses at a concrete started queue. -/
theorem c9_start_stop_idempotent_witness :
    begin (begin (initState 3) true true).2 true true
        = (true, (begin (initState 3) true true).2)
    ∧ endQ (initState 3) = initState 3 :=
  ⟨c9_start_stop_idempotent.1 _ true true (by decide),
   c9_start_stop_idempotent.2.1 _ (by decide)⟩

/-! ## C7 — start failure releases partial resources -/

/-- C7: if `begin` fails — queue allocation fails, or the worker-task
spawn fails after the queue was allocated — it returns false, the
partially created queue is released, and the state is exactly the
Stopped state it started from (not running, no queue, no task handle, no
leaked allocation). -/
theorem c7_start_failure_releases (s : PostQueueState)
    (hr : s.running = false) (hq : s.queue = none) (ht : s.taskHandle = false)
    (qOk tOk : Bool) (hfail : qOk = false ∨ tOk = false) :
    begin s qOk tOk = (false, s) := by
  unfold begin
  rcases hfail with h | h
  · simp [hr, h]
  · cases hqOk : qOk
    · simp [hr, hqOk]
    · simp only [hr, h, Bool.not_true, Bool.not_false, Bool.false_eq_true,
        if_false, if_true, ite_true, ite_false]
      refine Prod.ext rfl ?_
      simp only [Nat.add_sub_cancel]
      cases s
      simp_all

/-- C7 witness: spawn failure after successful queue allocation leaves a
fresh queue unchanged. -/
theorem c7_start_failure_releases_witness :
    begin (initState 10) true false = (false, initState 10) :=
  c7_start_failure_releases (initState 10) rfl rfl rfl true false (Or.inr rfl)

/-! ## C1 — TLS verification default -/

/-- C1 counterexample: on a newly constructed `PostQueue` (on which
`setSSLVerification` was never called), executing with `useSSL = true`
configures the transport with `setInsecure()` — certificate validation is
skipped by default, contradicting the claim that verification is the
default. -/
theorem c1_counterexample :
    (performPostConfig (initState 10) "https://example.com" "{}" none
        true).insecure = true := by
  decide

/-- C1 (amended): a newly constructed `PostQueue` has `_verifySSL = false`,
so executing a record with `useSSL = true` configures the transport to
*skip* certificate validation; validation is performed only after the
caller explicitly enables it via `setSSLVerification(true)` (secure mode
is the opt-in, insecure mode is the default). In general the secure
transport is selected per `useSSL` and `setInsecure()` is called iff
`useSSL && !_verifySSL`. -/
theorem c1_tls_default_amended :
    (∀ n : Nat, (initState n).verifySSL = false)
    ∧ (∀ (n : Nat) (u p : String) (ch : Option String),
        (performPostConfig (initState n) u p ch true).insecure = true)
    ∧ (∀ (s : PostQueueState) (u p : String) (ch : Option String) (ssl : Bool),
        (performPostConfig s u p ch ssl).secure = ssl
        ∧ (performPostConfig s u p ch ssl).insecure = (ssl && !s.verifySSL))
    ∧ (∀ (s : PostQueueState) (u p : String) (ch : Option String),
        (performPostConfig (setSSLVerification s true) u p ch true).insecure
          = false) := by
  refine ⟨fun n => rfl, fun n u p ch => rfl, fun s u p ch ssl => ⟨rfl, rfl⟩,
    fun s u p ch => ?_⟩
  simp [performPostConfig, setSSLVerification]

/-! ## C5 — success classification and callback data -/

/-- C5: a record is classified successful iff the status code is in
[200, 300); this boolean selects the counter incremented and is passed to
the callback together with the exact (non-normalized) status code and the
available body (`""` when the transport failed before a response).
Concretely: 201 is successful, 404 yields `(false, 404, body)`, −1 yields
`(false, -1, "")`. -/
theorem c5_success_classification :
    (∀ t : TransportResult,
        (performPostResult t).1 = (decide (200 ≤ t.code) && decide (t.code < 300))
        ∧ (performPostResult t).2.1 = t.code
        ∧ (performPostResult t).2.2 = (if 0 < t.code then t.body else ""))
    ∧ (∀ (s : PostQueueState) (item : PostItem) (t : TransportResult),
        (processPostItem s (some item) t).1.totalSuccessful
            = (if (performPostResult t).1
               then (s.totalSuccessful + 1) % 2 ^ 32 else s.totalSuccessful)
        ∧ (processPostItem s (some item) t).1.totalFailed
            = (if (performPostResult t).1
               then s.totalFailed else (s.totalFailed + 1) % 2 ^ 32)
        ∧ (processPostItem s (some item) t).1.totalProcessed
            = (s.totalProcessed + 1) % 2 ^ 32
        ∧ (processPostItem s (some item) t).2
            = (if s.hasCallback then some (performPostResult t) else none))
    ∧ performPostResult ⟨201, "created"⟩ = (true, 201, "created")
    ∧ performPostResult ⟨404, "not found"⟩ = (false, 404, "not found")
    ∧ performPostResult ⟨-1, "unused"⟩ = (false, -1, "") := by
  refine ⟨?_, ?_, by decide, by decide, by decide⟩
  · intro t
    obtain ⟨code, body⟩ := t
    by_cases h1 : (0 : Int) < code
    · by_cases h2 : (200 : Int) ≤ code <;> by_cases h3 : code < (300 : Int) <;>
        simp [performPostResult, h1, h2, h3]
    · have h2 : ¬ (200 : Int) ≤ code := by omega
      simp [performPostResult, h1, h2]
  · intro s item t
    by_cases hc : s.hasCallback <;> by_cases hs : (performPostResult t).1 <;>
      simp [processPostItem, hc, hs]

/-! ## Counter lemmas (C4) -/

lemma post_counters (s : PostQueueState) (u p : String) (ssl : Bool)
    (ch : Option String) (a : AllocPlan) (now : Nat) :
    (post s u p ssl ch a now).2.totalProcessed = s.totalProcessed ∧
    (post s u p ssl ch a now).2.totalSuccessful = s.totalSuccessful ∧
    (post s u p ssl ch a now).2.totalFailed = s.totalFailed := by
  unfold post
  cases hq : s.queue <;> simp [hq]
  split_ifs <;> simp

lemma applyOp_stats (s : PostQueueState) (op : Op)
    (hOk : s.totalProcessed = s.totalSuccessful + s.totalFailed)
    (hlt : s.totalSuccessful + s.totalFailed + 1 < 2 ^ 32) :
    (applyOp s op).totalProcessed
        = (applyOp s op).totalSuccessful + (applyOp s op).totalFailed
    ∧ s.totalProcessed ≤ (applyOp s op).totalProcessed
    ∧ s.totalSuccessful ≤ (applyOp s op).totalSuccessful
    ∧ s.totalFailed ≤ (applyOp s op).totalFailed
    ∧ (applyOp s op).totalSuccessful + (applyOp s op).totalFailed
        ≤ s.totalSuccessful + s.totalFailed + 1 := by
  cases op with
  | opPost c =>
      have h := post_counters s c.url c.payload c.useSSL c.headers c.a c.now
      simp only [applyOp, h.1, h.2.1, h.2.2]
      omega
  | opWorker t =>
      by_cases hr : s.running
      · cases hq : s.queue with
        | none => simp [applyOp, workerStep, hr, hq]; omega
        | some items =>
          cases items with
          | nil => simp [applyOp, workerStep, hr, hq]; omega
          | cons item rest =>
            by_cases hs : (performPostResult t).1 <;>
              simp [applyOp, workerStep, processPostItem, hr, hq, hs] <;>
              omega
      · simp [applyOp, workerStep, hr]; omega
  | opBegin q tk =>
      have h := begin_counters s q tk
      simp only [applyOp, h.1, h.2.1, h.2.2]
      omega
  | opEnd =>
      have h := endQ_counters s
      simp only [applyOp, h.1, h.2.1, h.2.2]
      omega
  | opClear =>
      have h := clear_fields s
      simp only [applyOp, h.2.2.1, h.2.2.2.1, h.2.2.2.2.1]
      omega
  | opSetSSL b => simp only [applyOp, setSSLVerification]; omega
  | opSetTimeout n => simp only [applyOp, setTimeout]; omega
  | opSetMaxRedirects n => simp only [applyOp, setMaxRedirects]; omega
  | opSetCallback b => simp only [applyOp, setCallback]; omega

lemma runOps_stats (ops : List Op) (s : PostQueueState)
    (hOk : s.totalProcessed = s.totalSuccessful + s.totalFailed)
    (hlt : s.totalSuccessful + s.totalFailed + ops.length < 2 ^ 32) :
    (runOps s ops).totalProcessed
        = (runOps s ops).totalSuccessful + (runOps s ops).totalFailed
    ∧ s.totalProcessed ≤ (runOps s ops).totalProcessed
    ∧ s.totalSuccessful ≤ (runOps s ops).totalSuccessful
    ∧ s.totalFailed ≤ (runOps s ops).totalFailed
    ∧ (runOps s ops).totalSuccessful + (runOps s ops).totalFailed
        ≤ s.totalSuccessful + s.totalFailed + ops.length := by
  induction ops generalizing s with
  | nil => simp [runOps]; omega
  | cons op ops ih =>
      have hstep := applyOp_stats s op hOk (by simp at hlt; omega)
      have hrest := ih (applyOp s op) hstep.1 (by simp at hlt; omega)
      simp only [runOps, List.foldl_cons] at hrest ⊢
      simp only [List.length_cons] at hlt ⊢
      omega

/-! ## C4 — counter invariant, monotonicity, stop/start persistence -/

/-- C4: starting from a newly constructed `PostQueue`, after any sequence
of operations (shorter than the `uint32_t` wrap-around bound 2³²)
`totalProcessed` equals `totalSuccessful + totalFailed`; all three
counters are monotonically non-decreasing along the sequence; and
`end()` followed by `begin()` leaves all three counters unchanged — only
a fresh construction resets them to zero. -/
theorem c4_counter_invariant (n : Nat) (ops : List Op)
    (h : ops.length < 2 ^ 32) :
    ((runOps (initState n) ops).totalProcessed
        = (runOps (initState n) ops).totalSuccessful
            + (runOps (initState n) ops).totalFailed)
    ∧ (∀ pre suf, ops = pre ++ suf →
        (runOps (initState n) pre).totalProcessed
            ≤ (runOps (initState n) ops).totalProcessed
        ∧ (runOps (initState n) pre).totalSuccessful
            ≤ (runOps (initState n) ops).totalSuccessful
        ∧ (runOps (initState n) pre).totalFailed
            ≤ (runOps (initState n) ops).totalFailed)
    ∧ (∀ (s : PostQueueState) (q tk : Bool),
        (runOps s [Op.opEnd, Op.opBegin q tk]).totalProcessed = s.totalProcessed
        ∧ (runOps s [Op.opEnd, Op.opBegin q tk]).totalSuccessful
            = s.totalSuccessful
        ∧ (runOps s [Op.opEnd, Op.opBegin q tk]).totalFailed = s.totalFailed)
    ∧ getStats (initState n) = (0, 0, 0) := by
  have hinit : (initState n).totalProcessed
      = (initState n).totalSuccessful + (initState n).totalFailed := rfl
  refine ⟨(runOps_stats ops (initState n) hinit (by simp [initState]; omega)).1,
    ?_, ?_, rfl⟩
  · intro pre suf hsplit
    subst hsplit
    have h0s : (initState n).totalSuccessful = 0 := rfl
    have h0f : (initState n).totalFailed = 0 := rfl
    have hpre := runOps_stats pre (initState n) hinit
      (by simp [initState]; simp [List.length_append] at h; omega)
    have hsuf := runOps_stats suf (runOps (initState n) pre) hpre.1
      (by simp [List.length_append] at h; omega)
    simp only [runOps, List.foldl_append] at hsuf ⊢
    exact ⟨hsuf.2.1, hsuf.2.2.1, hsuf.2.2.2.1⟩
  · intro s q tk
    have h1 := endQ_counters s
    have h2 := begin_counters (endQ s) q tk
    simp only [runOps, List.foldl_cons, List.foldl_nil, applyOp]
    exact ⟨by rw [h2.1, h1.1], by rw [h2.2.1, h1.2.1], by rw [h2.2.2, h1.2.2]⟩

/-- C4 witness: the invariant at a concrete six-operation trace
(start, two submissions, two worker iterations, stop). -/
theorem c4_counter_invariant_witness :
    (runOps (initState 4) [Op.opBegin true true,
        Op.opPost ⟨"u1", "p", true, none, ⟨true, true, true, true⟩, 0⟩,
        Op.opPost ⟨"u2", "p", false, none, ⟨true, true, true, true⟩, 1⟩,
        Op.opWorker ⟨201, "ok"⟩, Op.opWorker ⟨500, "err"⟩,
        Op.opEnd]).totalProcessed
      = (runOps (initState 4) [Op.opBegin true true,
        Op.opPost ⟨"u1", "p", true, none, ⟨true, true, true, true⟩, 0⟩,
        Op.opPost ⟨"u2", "p", false, none, ⟨true, true, true, true⟩, 1⟩,
        Op.opWorker ⟨201, "ok"⟩, Op.opWorker ⟨500, "err"⟩,
        Op.opEnd]).totalSuccessful
        + (runOps (initState 4) [Op.opBegin true true,
        Op.opPost ⟨"u1", "p", true, none, ⟨true, true, true, true⟩, 0⟩,
        Op.opPost ⟨"u2", "p", false, none, ⟨true, true, true, true⟩, 1⟩,
        Op.opWorker ⟨201, "ok"⟩, Op.opWorker ⟨500, "err"⟩,
        Op.opEnd]).totalFailed :=
  (c4_counter_invariant 4 _ (by decide)).1

/-! ## Queue-capacity lemmas (C2) -/

lemma post_queue_bound (s : PostQueueState) (u p : String) (ssl : Bool)
    (ch : Option String) (a : AllocPlan) (now : Nat)
    (h : getQueueSize s ≤ s.maxQueueSize) :
    getQueueSize (post s u p ssl ch a now).2 ≤ s.maxQueueSize
    ∧ (post s u p ssl ch a now).2.maxQueueSize = s.maxQueueSize := by
  unfold post
  cases hq : s.queue with
  | none => simp [hq, getQueueSize]
  | some items =>
      simp only [hq, getQueueSize] at h
      simp only [hq, Option.isNone_some, Bool.or_false]
      split_ifs <;> simp [getQueueSize, hq] <;> omega

lemma postMany_queue_bound (calls : List PostCall) (s : PostQueueState)
    (h : getQueueSize s ≤ s.maxQueueSize) :
    getQueueSize (postMany s calls) ≤ s.maxQueueSize
    ∧ (postMany s calls).maxQueueSize = s.maxQueueSize := by
  induction calls generalizing s with
  | nil => exact ⟨h, rfl⟩
  | cons c cs ih =>
      have hstep := post_queue_bound s c.url c.payload c.useSSL c.headers c.a c.now h
      have hrest := ih (post s c.url c.payload c.useSSL c.headers c.a c.now).2
        (hstep.2 ▸ hstep.1)
      rw [postMany]
      exact ⟨hstep.2 ▸ hrest.1, hstep.2 ▸ hrest.2⟩

lemma post_full (s : PostQueueState) (u p : String) (ssl : Bool)
    (ch : Option String) (a : AllocPlan) (now : Nat)
    (hfull : getQueueSize s = s.maxQueueSize) :
    post s u p ssl ch a now = (false, s) := by
  unfold post
  cases hq : s.queue with
  | none => simp [hq]
  | some items =>
      simp only [hq, getQueueSize] at hfull
      by_cases hr : s.running
      · have hz : s.maxQueueSize - items.length = 0 := by omega
        simp [hq, hr, hz]
      · simp [hq, hr]

/-! ## C2 — occupancy never exceeds capacity -/

/-- C2: for every sequence of `post` calls, queue occupancy
(`getQueueSize`) never exceeds the configured capacity; a `post` call
made while occupancy equals capacity returns false and leaves state (so
in particular occupancy) unchanged. -/
theorem c2_capacity_invariant (s : PostQueueState)
    (h : getQueueSize s ≤ s.maxQueueSize) :
    (∀ calls : List PostCall,
        getQueueSize (postMany s calls) ≤ s.maxQueueSize)
    ∧ (∀ (u p : String) (ssl : Bool) (ch : Option String) (a : AllocPlan)
        (now : Nat), getQueueSize s = s.maxQueueSize →
          post s u p ssl ch a now = (false, s)) :=
  ⟨fun calls => (postMany_queue_bound calls s h).1,
   fun u p ssl ch a now hfull => post_full s u p ssl ch a now hfull⟩

/-- Allocation oracle in which every allocation succeeds. -/
def allocAllOk : AllocPlan := ⟨true, true, true, true⟩

/-- A `PostQueue` of capacity 2 that has been started and filled to
capacity. -/
def c2FullState : PostQueueState :=
  postMany (begin (initState 2) true true).2
    [⟨"u1", "p", true, none, allocAllOk, 1⟩,
     ⟨"u2", "p", true, none, allocAllOk, 2⟩]

/-- C2 witness: with capacity 2 filled, a further submission returns
false and changes nothing, and occupancy stays within bound after any of
the example call sequences. -/
theorem c2_capacity_invariant_witness :
    getQueueSize (postMany c2FullState
        [⟨"u3", "p", true, none, allocAllOk, 3⟩]) ≤ c2FullState.maxQueueSize
    ∧ post c2FullState "u3" "p" true none allocAllOk 3 = (false, c2FullState) :=
  ⟨(c2_capacity_invariant c2FullState (by decide)).1 _,
   (c2_capacity_invariant c2FullState (by decide)).2 "u3" "p" true none
     allocAllOk 3 (by decide)⟩

/-! ## C6 — submit failure conditions and leak-freedom -/

/-- A freshly started `PostQueue` of capacity 10 (used by the C6
counterexample and witness). -/
def c6StartedState : PostQueueState := (begin (initState 10) true true).2

/-- C6 counterexample: on a started queue, when copying the optional
`customHeaders` string fails (`strdup` returns NULL) but the other
allocations succeed, `post` returns **true** and enqueues the record with
its headers silently dropped — refuting the claim that `post` returns
false exactly when the worker is stopped, the queue is full, or
allocation of the record's string copies fails. -/
theorem c6_counterexample :
    (post c6StartedState "u" "p" true (some "H: V")
        ⟨true, true, true, false⟩ 0).1 = true
    ∧ (post c6StartedState "u" "p" true (some "H: V")
        ⟨true, true, true, false⟩ 0).2.queue
      = some [⟨some "u", some "p", none, true, 0⟩] := by
  constructor <;> decide

/-- C6 (amended): `post` returns false without enqueuing exactly when the
worker is not running, the queue handle is absent, the queue is full,
allocation of the `PostItem` itself fails, or copying the `url` or
`jsonPayload` strings fails; a failed copy of the optional
`customHeaders` string is *not* detected — the record is enqueued with
its headers dropped. On every failure path the state (queue contents and
heap accounting) is exactly unchanged: everything allocated for the
record is released. -/
theorem c6_submit_failure_amended (s : PostQueueState) (u p : String)
    (ssl : Bool) (ch : Option String) (a : AllocPlan) (now : Nat) :
    ((post s u p ssl ch a now).1 = false ↔
      (s.running = false ∨ s.queue = none
       ∨ s.maxQueueSize ≤ getQueueSize s
       ∨ a.itemOk = false ∨ a.urlOk = false ∨ a.payloadOk = false))
    ∧ ((post s u p ssl ch a now).1 = false → (post s u p ssl ch a now).2 = s)
    ∧ (∀ (items : List PostItem) (hdr : String), s.running = true →
        s.queue = some items → items.length < s.maxQueueSize →
        a.itemOk = true → a.urlOk = true → a.payloadOk = true →
        ch = some hdr → a.headersOk = false →
        (post s u p ssl ch a now).1 = true
        ∧ (post s u p ssl ch a now).2.queue
            = some (items ++ [⟨some u, some p, none, ssl, now⟩])) := by
  obtain ⟨ai, au, ap2, ah⟩ := a
  obtain ⟨q, th, mq, htm, mr, v, cb, tp, ts, tf, r, lv, sc⟩ := s
  refine ⟨?_, ?_, ?_⟩
  · unfold post
    cases q with
    | none => cases r <;> simp [getQueueSize]
    | some items =>
        cases r
        · simp
        · by_cases hfull : mq - items.length = 0
          · simp [hfull, getQueueSize]
            omega
          · have hlt : items.length < mq := by omega
            cases ai <;> cases au <;> cases ap2 <;>
              simp [hfull, hlt, getQueueSize]
  · unfold post
    cases q with
    | none => cases r <;> simp
    | some items =>
        cases r
        · simp
        · by_cases hfull : mq - items.length = 0
          · simp [hfull]
          · have hlt : items.length < mq := by omega
            cases ai <;> cases au <;> cases ap2 <;>
              simp [hfull, hlt, itemBlocks]
  · intro items hdr hr hq hlen hai hau hap hch hah
    subst hai hau hap hch hah hr hq
    unfold post
    have hlen' : items.length < mq := by simpa using hlen
    have hfull : ¬ mq - items.length = 0 := by omega
    simp [hfull, hlen']

/-- C6 witness for the amended claim: a failed `PostItem` allocation on a
started queue returns false and leaves the state exactly unchanged. -/
theorem c6_submit_failure_amended_witness :
    (post c6StartedState "u" "p" true none ⟨false, true, true, true⟩ 0).1 = false
    ∧ (post c6StartedState "u" "p" true none
        ⟨false, true, true, true⟩ 0).2 = c6StartedState :=
  ⟨by decide,
   (c6_submit_failure_amended c6StartedState "u" "p" true none
     ⟨false, true, true, true⟩ 0).2.1 (by decide)⟩

/-! ## C8 — stop discards queued records without executing them -/

/-- A freshly started `PostQueue` of capacity 10 (C8 teardown
scenario). -/
def c8Start : PostQueueState := (begin (initState 10) true true).2

/-- Five records queued before the worker processes anything. -/
def c8Calls : List PostCall :=
  [⟨"u1", "p1", true, none, allocAllOk, 1⟩,
   ⟨"u2", "p2", true, some "X: 1", allocAllOk, 2⟩,
   ⟨"u3", "p3", false, none, allocAllOk, 3⟩,
   ⟨"u4", "p4", true, none, allocAllOk, 4⟩,
   ⟨"u5", "p5", true, some "Y: 2", allocAllOk, 5⟩]

/-- The queue with the five records enqueued and none processed. -/
def c8AfterPosts : PostQueueState := postMany c8Start c8Calls

/-- C8: after `end()`, `getQueueSize()` is 0, `totalProcessed` is
unchanged, and no still-queued record is ever executed (every further
worker iteration is a no-op). Concretely: queue 5 records, call `end()`
before any is processed — `getStats` afterward reports
`totalProcessed = 0`, the queue is empty, and every heap block allocated
for the 5 records (and the queue and task) has been released
(`live = 0`). -/
theorem c8_stop_discards_queue (s : PostQueueState)
    (hwf : s.running = false → s.queue = none) :
    getQueueSize (endQ s) = 0
    ∧ (endQ s).totalProcessed = s.totalProcessed
    ∧ (∀ t, workerStep (endQ s) t = (endQ s, none))
    ∧ (getQueueSize c8AfterPosts = 5 ∧ getStats c8AfterPosts = (0, 0, 0)
       ∧ getQueueSize (endQ c8AfterPosts) = 0
       ∧ getStats (endQ c8AfterPosts) = (0, 0, 0)
       ∧ (endQ c8AfterPosts).live = 0) := by
  refine ⟨?_, (endQ_counters s).1, ?_, by decide⟩
  · have h := endQ_queue s hwf
    simp [getQueueSize, h]
  · intro t
    simp [workerStep, endQ_running s]

/-- C8 witness: the theorem instantiated at the five-record scenario
state. -/
theorem c8_stop_discards_queue_witness :
    getQueueSize (endQ c8AfterPosts) = 0
    ∧ (endQ c8AfterPosts).totalProcessed = c8AfterPosts.totalProcessed :=
  ⟨(c8_stop_discards_queue c8AfterPosts (by decide)).1,
   (c8_stop_discards_queue c8AfterPosts (by decide)).2.1⟩

/-! ## Header-parsing lemmas (C3) -/

lemma indexOfChar_eq_none {l : List Char} {c : Char} :
    indexOfChar l c = none ↔ c ∉ l := by
  induction l with
  | nil => simp [indexOfChar]
  | cons x rest ih =>
      by_cases hx : x = c
      · simp [indexOfChar, hx]
      · have hx' : ¬ (c = x) := fun h => hx h.symm
        simp [indexOfChar, hx, hx', ih]

lemma indexOfChar_eq_some {l : List Char} {c : Char} {k : Nat}
    (h : indexOfChar l c = some k) :
    ∃ pre post, l = pre ++ c :: post ∧ pre.length = k ∧ c ∉ pre := by
  induction l generalizing k with
  | nil => simp [indexOfChar] at h
  | cons x rest ih =>
      by_cases hx : x = c
      · simp [indexOfChar, hx] at h
        subst hx h
        exact ⟨[], rest, rfl, rfl, by simp⟩
      · simp [indexOfChar, hx] at h
        obtain ⟨k', h1, h2⟩ := h
        subst h2
        obtain ⟨pre, post, hdec, hlen, hnin⟩ := ih h1
        refine ⟨x :: pre, post, by simp [hdec], by simp [hlen], ?_⟩
        simp [hnin]
        exact fun h => hx h.symm

lemma indexOfChar_append {a : List Char} {c : Char} (b : List Char)
    (h : c ∉ a) : indexOfChar (a ++ c :: b) c = some a.length := by
  induction a with
  | nil => simp [indexOfChar]
  | cons x xs ih =>
      simp only [List.mem_cons, not_or] at h
      have hx : ¬ (x = c) := fun hh => h.1 hh.symm
      simp [indexOfChar, hx, ih h.2]

lemma specSplitLines_no_nl {l : List Char} (h : '\n' ∉ l) :
    specSplitLines l = [l] := by
  induction l with
  | nil => rfl
  | cons c rest ih =>
      simp only [List.mem_cons, not_or] at h
      have hc : ¬ (c = '\n') := fun hh => h.1 hh.symm
      simp [specSplitLines, hc, ih h.2]

lemma specSplitLines_append {pre post : List Char} (h : '\n' ∉ pre) :
    specSplitLines (pre ++ '\n' :: post) = pre :: specSplitLines post := by
  induction pre with
  | nil => simp [specSplitLines]
  | cons c cs ih =>
      simp only [List.mem_cons, not_or] at h
      have hc : ¬ (c = '\n') := fun hh => h.1 hh.symm
      simp [specSplitLines, hc, ih h.2]

lemma specSplitFirstColon_eq_none {l : List Char} :
    specSplitFirstColon l = none ↔ ':' ∉ l := by
  induction l with
  | nil => simp [specSplitFirstColon]
  | cons x rest ih =>
      by_cases hx : x = ':'
      · simp [specSplitFirstColon, hx]
      · have hx' : ¬ (':' = x) := fun h => hx h.symm
        simp [specSplitFirstColon, hx, hx', ih]

lemma specSplitFirstColon_eq_some {l n v : List Char}
    (h : specSplitFirstColon l = some (n, v)) :
    l = n ++ ':' :: v ∧ ':' ∉ n := by
  induction l generalizing n v with
  | nil => simp [specSplitFirstColon] at h
  | cons x rest ih =>
      rw [specSplitFirstColon] at h
      by_cases hx : x = ':'
      · rw [if_pos hx] at h
        simp only [Option.some.injEq, Prod.mk.injEq] at h
        obtain ⟨h1, h2⟩ := h
        subst hx h1 h2
        exact ⟨rfl, by simp⟩
      · rw [if_neg hx, Option.map_eq_some'] at h
        obtain ⟨⟨n', v'⟩, h1, h2⟩ := h
        simp only [Prod.mk.injEq] at h2
        obtain ⟨h2a, h2b⟩ := h2
        subst h2a h2b
        obtain ⟨hdec, hnin⟩ := ih h1
        subst hdec
        refine ⟨by simp, ?_⟩
        simp only [List.mem_cons, not_or]
        exact ⟨fun hh => hx hh.symm, hnin⟩

lemma dropWhile_append_eq {α : Type} [DecidableEq α] (p : α → Bool)
    (a b : List α) :
    (a ++ b).dropWhile p =
      if a.dropWhile p = [] then b.dropWhile p else a.dropWhile p ++ b := by
  induction a with
  | nil => simp
  | cons x xs ih =>
      by_cases hx : p x <;> simp [List.dropWhile_cons, hx, ih]

lemma dropWhile_idem {α : Type} (p : α → Bool) (l : List α) :
    (l.dropWhile p).dropWhile p = l.dropWhile p := by
  induction l with
  | nil => simp
  | cons x xs ih => by_cases hx : p x <;> simp [List.dropWhile_cons, hx, ih]

lemma head_dropWhile_false {α : Type} (p : α → Bool) (l : List α) {c : α}
    {rest : List α} (h : l.dropWhile p = c :: rest) : p c = false := by
  induction l with
  | nil => simp at h
  | cons x xs ih =>
      by_cases hx : p x
      · rw [List.dropWhile_cons, if_pos hx] at h
        exact ih h
      · rw [List.dropWhile_cons, if_neg hx] at h
        cases h
        simp at hx
        exact hx

lemma mem_dropWhile {α : Type} (p : α → Bool) (l : List α) {c : α}
    (h : c ∈ l.dropWhile p) : c ∈ l := by
  induction l with
  | nil => exact absurd h (by simp)
  | cons x xs ih =>
      by_cases hx : p x
      · rw [List.dropWhile_cons, if_pos hx] at h
        exact List.mem_cons_of_mem x (ih h)
      · rwa [List.dropWhile_cons, if_neg hx] at h

/-- `String::trim`'s leading-whitespace removal. -/
def trimL (l : List Char) : List Char := l.dropWhile isSpaceB

/-- `String::trim`'s trailing-whitespace removal. -/
def trimR (l : List Char) : List Char := (l.reverse.dropWhile isSpaceB).reverse

lemma trimChars_eq (l : List Char) : trimChars l = trimR (trimL l) := rfl

lemma trimL_cons (c : Char) (l : List Char) :
    trimL (c :: l) = if isSpaceB c then trimL l else c :: l := by
  simp [trimL, List.dropWhile_cons]

lemma trimR_cons (c : Char) (l : List Char) :
    trimR (c :: l) =
      if trimR l = [] then (if isSpaceB c then [] else [c])
      else c :: trimR l := by
  unfold trimR
  rw [show (c :: l).reverse = l.reverse ++ [c] from List.reverse_cons c l,
    dropWhile_append_eq]
  by_cases h : l.reverse.dropWhile isSpaceB = []
  · by_cases hc : isSpaceB c <;> simp [h, hc, List.dropWhile_cons]
  · have h' : ¬ (l.reverse.dropWhile isSpaceB).reverse = [] := by
      simpa [List.reverse_eq_nil_iff] using h
    simp [h, h']

lemma trimR_cons_not_space {c : Char} (l : List Char) (hc : ¬ isSpaceB c) :
    trimR (c :: l) = c :: trimR l := by
  rw [trimR_cons]
  by_cases h : trimR l = [] <;> simp [h, hc]

lemma trimL_idem (l : List Char) : trimL (trimL l) = trimL l :=
  dropWhile_idem _ _

lemma trimR_idem (l : List Char) : trimR (trimR l) = trimR l := by
  unfold trimR
  rw [List.reverse_reverse, dropWhile_idem]

lemma trimL_trimR_comm (l : List Char) : trimL (trimR l) = trimR (trimL l) := by
  induction l with
  | nil => rfl
  | cons c l ih =>
      by_cases hc : isSpaceB c
      · rw [trimL_cons, if_pos hc, ← ih, trimR_cons]
        by_cases h : trimR l = []
        · simp [h, hc, trimL]
        · rw [if_neg h, trimL_cons, if_pos hc]
      · simp only [trimR_cons_not_space l hc, trimL_cons, if_neg hc]

lemma trimR_append_of_ne_nil {a b : List Char} (h : trimR b ≠ []) :
    trimR (a ++ b) = a ++ trimR b := by
  unfold trimR at *
  rw [List.reverse_append, dropWhile_append_eq]
  have h' : ¬ b.reverse.dropWhile isSpaceB = [] := by
    intro hh
    exact h (by simp [hh])
  simp [h']

lemma trimL_append_of_ne_nil {a b : List Char} (h : trimL a ≠ []) :
    trimL (a ++ b) = trimL a ++ b := by
  unfold trimL at *
  rw [dropWhile_append_eq, if_neg h]

lemma trimL_append_of_nil {a b : List Char} (h : trimL a = []) :
    trimL (a ++ b) = trimL b := by
  unfold trimL at *
  rw [dropWhile_append_eq, if_pos h]

lemma mem_trimChars {c : Char} {l : List Char} (h : c ∈ trimChars l) :
    c ∈ l := by
  rw [trimChars_eq] at h
  unfold trimR trimL at h
  have h1 := mem_dropWhile isSpaceB _ (by simpa using h)
  exact mem_dropWhile isSpaceB l (by simpa using h1)

lemma mem_trimL {c : Char} {l : List Char} (h : c ∈ trimL l) : c ∈ l :=
  mem_dropWhile isSpaceB l h

lemma drop_append_cons (a : List Char) (c : Char) (b : List Char) :
    (a ++ c :: b).drop (a.length + 1) = b := by
  induction a with
  | nil => simp
  | cons x xs ih => simp [ih]

lemma colon_not_space : isSpaceB ':' = false := rfl

lemma trimChars_decomp_colon (n v : List Char) :
    trimChars (n ++ ':' :: v) = trimL n ++ ':' :: trimR v := by
  rw [trimChars_eq]
  have hcolon : trimR (':' :: v) = ':' :: trimR v :=
    trimR_cons_not_space v (by simp [isSpaceB])
  by_cases h : trimL n = []
  · rw [trimL_append_of_nil h, trimL_cons]
    simp only [isSpaceB]
    rw [h]
    simp only [List.nil_append, if_false, Bool.or_self, Bool.false_or]
    exact hcolon
  · rw [trimL_append_of_ne_nil h,
      trimR_append_of_ne_nil (by simp [hcolon]), hcolon]

lemma trimChars_of_trimL_nil {n : List Char} (h : trimL n = []) :
    trimChars n = [] := by
  rw [trimChars_eq, h]
  rfl

lemma trimChars_trimL (n : List Char) : trimChars (trimL n) = trimChars n := by
  rw [trimChars_eq, trimChars_eq, trimL_idem]

lemma trimChars_trimR (v : List Char) : trimChars (trimR v) = trimChars v := by
  rw [trimChars_eq, trimChars_eq, trimL_trimR_comm, trimR_idem]

lemma trimChars_ne_nil_of_trimL {n : List Char} (h : trimL n ≠ []) :
    trimChars n ≠ [] := by
  obtain ⟨c, rest, hcr⟩ := List.exists_cons_of_ne_nil h
  have hcws : isSpaceB c = false := head_dropWhile_false isSpaceB n hcr
  rw [trimChars_eq, hcr, trimR_cons_not_space rest (by simp [hcws])]
  simp

/-- The source header loop computes, on every input, exactly the parse
described by the spec: split into newline-separated lines, split each
line on its first colon, trim name and value, skip colon-less lines and
lines with an empty trimmed name. -/
lemma processHeaderLine_eq_spec (line : List Char) :
    processHeaderLine line = specHeaderOfLine line := by
  cases hsc : specSplitFirstColon line with
  | none =>
      have hmem : ':' ∉ line := specSplitFirstColon_eq_none.mp hsc
      have hidx : indexOfChar (trimChars line) ':' = none :=
        indexOfChar_eq_none.mpr (fun h => hmem (mem_trimChars h))
      simp only [processHeaderLine, specHeaderOfLine, hsc,
        stringIndexOfInt, hidx]
      simp
  | some nv =>
      obtain ⟨n, v⟩ := nv
      obtain ⟨hdec, hnin⟩ := specSplitFirstColon_eq_some hsc
      subst hdec
      have hnin1 : ':' ∉ trimL n := fun h => hnin (mem_trimL h)
      simp only [processHeaderLine, specHeaderOfLine, hsc,
        trimChars_decomp_colon, stringIndexOfInt,
        indexOfChar_append _ hnin1]
      by_cases hn : trimL n = []
      · rw [hn]
        simp [trimChars_of_trimL_nil hn]
      · have hlen : 0 < (trimL n).length := List.length_pos.mpr hn
        rw [if_pos (by simp), if_pos (by exact_mod_cast hlen)]
        rw [show ((trimL n).length : Int).toNat = (trimL n).length from
          Int.toNat_natCast _]
        rw [List.take_left, drop_append_cons, trimChars_trimL,
          trimChars_trimR, if_neg (trimChars_ne_nil_of_trimL hn)]

lemma specParseHeaders_split {pre post : List Char} (hnin : '\n' ∉ pre) :
    specParseHeaders (pre ++ '\n' :: post)
      = (match specHeaderOfLine pre with
         | some nv => [nv]
         | none => []) ++ specParseHeaders post := by
  rw [specParseHeaders, specSplitLines_append hnin, List.filterMap_cons]
  cases specHeaderOfLine pre <;> simp [specParseHeaders]

/-- The absolute-index header loop of the source equals the spec-side
parse of the still-unscanned suffix, for any sufficient fuel. -/
lemma headerLoopFuel_eq_spec (fuel : Nat) (headers : List Char)
    (startPos : Nat) (hfuel : headers.length - startPos < fuel) :
    headerLoopFuel fuel headers startPos
      = specParseHeaders (headers.drop startPos) := by
  induction fuel generalizing startPos with
  | zero => omega
  | succ fuel ih =>
      cases hidx : indexOfChar (headers.drop startPos) '\n' with
      | some k =>
          obtain ⟨pre, post, hdec, hlen, hnin⟩ := indexOfChar_eq_some hidx
          subst hlen
          have hlens : (headers.drop startPos).length
              = pre.length + 1 + post.length := by
            rw [hdec]
            simp [List.length_append]
            omega
          have hld : (headers.drop startPos).length
              = headers.length - startPos := List.length_drop _ _
          have htake : (headers.drop startPos).take pre.length = pre := by
            rw [hdec, List.take_left]
          have hdrop : headers.drop (startPos + pre.length + 1) = post := by
            have h1 : (headers.drop startPos).drop (pre.length + 1) = post := by
              rw [hdec, drop_append_cons]
            rw [List.drop_drop] at h1
            rw [show startPos + pre.length + 1
                = startPos + (pre.length + 1) by omega]
            exact h1
          simp only [headerLoopFuel, hidx]
          rw [htake, ih (startPos + pre.length + 1) (by omega), hdrop, hdec,
            specParseHeaders_split hnin, processHeaderLine_eq_spec]
      | none =>
          have hnin : '\n' ∉ headers.drop startPos :=
            indexOfChar_eq_none.mp hidx
          simp only [headerLoopFuel, hidx]
          by_cases hlt : startPos < headers.length
          · rw [if_pos hlt, specParseHeaders, specSplitLines_no_nl hnin,
              List.filterMap_cons, processHeaderLine_eq_spec]
            cases specHeaderOfLine (headers.drop startPos) <;> simp
          · rw [if_neg hlt]
            have hnil : headers.drop startPos = [] :=
              List.drop_eq_nil_of_le (by omega)
            rw [hnil]
            rfl

/-! ## C3 — custom-header parsing -/

/-- C3: `performPost` parses the custom-header string as
newline-separated lines, splitting each line on the first `:` only,
trimming surrounding whitespace from name and value, silently skipping
lines with no colon or an empty trimmed name without aborting later
lines, and accepting a final line with no trailing newline — i.e. the
source loop equals the spec-side parse on every input. In particular
`"X-A: 1\nX-B: two words\nmalformed-line\nX-C:3"` yields exactly the
three applied headers `X-A=1`, `X-B=two words`, `X-C=3`. -/
theorem c3_header_parsing :
    (∀ h : String, parseCustomHeaders (some h) = specParseHeaders h.data)
    ∧ parseCustomHeaders (some "X-A: 1\nX-B: two words\nmalformed-line\nX-C:3")
        = [("X-A".data, "1".data), ("X-B".data, "two words".data),
           ("X-C".data, "3".data)] := by
  constructor
  · intro h
    rw [parseCustomHeaders]
    by_cases hlen : h.length > 0
    · rw [if_pos hlen, headerLoopFuel_eq_spec _ _ 0 (by omega),
        List.drop_zero]
    · rw [if_neg hlen]
      have hlen0 : h.length = 0 := by omega
      have hdata : h.data = [] := List.length_eq_zero.mp hlen0
      rw [hdata]
      rfl
  · decide

end PostQueue
